import Mathlib

/-!
Verification of the Efinix platform backend (`amaranth/vendor/_efinix.py`):
the pin-attribute classifier, the direction mapper, the GPIO constraint
enumerator, the constraint-file templates, the external-tool pipeline, and
the clock-domain creation logic, shallowly embedded in Lean.

Python dictionaries are modelled as association lists in insertion order
(keys unique when the dictionary is); optional values as `Option`; the
`raise` path of `create_missing_domain` as an explicit outcome constructor.
-/

namespace Efinix

/-- Static table of pin-level attribute names (`PIN_ATTRS` in the source). -/
def PIN_ATTRS : List String := [
  "io_standard"
]

/-- Static table of input-buffer attribute names (`INPUT_ATTRS` in the source). -/
def INPUT_ATTRS : List String := [
  "conn_type",
  "is_register",
  "clock_name",
  "is_clock_inverted",
  "pull_option",
  "is_schmitt_trigger",
  "ddio_type"
]

/-- Static table of output-buffer attribute names (`OUTPUT_ATTRS` in the source). -/
def OUTPUT_ATTRS : List String := [
  "is_clock_inverted",
  "is_slew_rate",
  "clock_name",
  "tied_option",
  "ddio_type",
  "drive_strength"
]

/-- Static table of output-enable attribute names (`OE_ATTRS` in the source): empty. -/
def OE_ATTRS : List String := []

/-- An attribute mapping: a Python dict rendered as an association list in
insertion order. -/
abbrev Attrs := List (String × String)

/-- The four attribute buckets returned by `_generate_efinix_attrs`. -/
structure Buckets where
  pin_attrs : Attrs
  in_attrs : Attrs
  out_attrs : Attrs
  oe_attrs : Attrs
deriving Repr, DecidableEq

/-- One iteration of the classification loop of `_generate_efinix_attrs`:
the entry is appended to every bucket whose static table lists its name
(dict assignment with a fresh key appends in insertion order). -/
def classifyStep (b : Buckets) (p : String × String) : Buckets :=
  let b1 := if p.1 ∈ PIN_ATTRS then { b with pin_attrs := b.pin_attrs ++ [p] } else b
  let b2 := if p.1 ∈ INPUT_ATTRS then { b1 with in_attrs := b1.in_attrs ++ [p] } else b1
  let b3 := if p.1 ∈ OUTPUT_ATTRS then { b2 with out_attrs := b2.out_attrs ++ [p] } else b2
  if p.1 ∈ OE_ATTRS then { b3 with oe_attrs := b3.oe_attrs ++ [p] } else b3

/-- `EfinixPlatform._generate_efinix_attrs`: classify each attribute into the
buckets naming it, then, if the input bucket lacks a `conn_type` key, inject
`"gclk"` when the resource is a clock and `"normal"` otherwise.
`res_clock` is the truthiness of `res.clock` in the source. -/
def generate_efinix_attrs (res_clock : Bool) (attrs : Attrs) : Buckets :=
  let b := attrs.foldl classifyStep ⟨[], [], [], []⟩
  if "conn_type" ∈ b.in_attrs.map Prod.fst then b
  else { b with
    in_attrs := b.in_attrs ++ [("conn_type", if res_clock then "gclk" else "normal")] }

/-- `EfinixPlatform._direction_from_resource`, keyed on `res.ios[0].dir`. -/
def direction_from_resource (dir : String) : String :=
  if dir = "oe" ∨ dir = "io" then "inout"
  else if dir = "o" then "output"
  else if dir = "i" then "input"
  else "none"

/-- One element of `self._ports` as consumed by `iter_gpio_constraints`:
the resolved physical pin names (`res.ios[0].map_names(...)`, supplied by the
external design model), the port signal name (`port.io.name`), the direction
string of `res.ios[0].dir`, the differential-pair flag, the truthiness of
`res.clock`, and the user attribute mapping. -/
structure PortBinding where
  pin_names : List String
  port_name : String
  dir : String
  is_differential : Bool
  clock : Bool
  attrs : Attrs
deriving Repr, DecidableEq

/-- One yielded tuple of `iter_gpio_constraints`:
`(pin_name, port_name, direction, is_differential, bit_attrs, in_attrs, out_attrs, oe_attrs)`. -/
structure GpioConstraintRecord where
  pin_name : String
  port_name : String
  mode : String
  is_differential : Bool
  pin_attrs : Attrs
  in_attrs : Attrs
  out_attrs : Attrs
  oe_attrs : Attrs
deriving Repr, DecidableEq

/-- The records `iter_gpio_constraints` yields for one port binding: a single
unsuffixed record when exactly one pin name resolved, otherwise one record per
pin with the port name suffixed by the 0-based bit index. -/
def gpio_records_for (b : PortBinding) : List GpioConstraintRecord :=
  let bk := generate_efinix_attrs b.clock b.attrs
  let direction := direction_from_resource b.dir
  match b.pin_names with
  | [p] =>
      [⟨p, b.port_name, direction, b.is_differential,
        bk.pin_attrs, bk.in_attrs, bk.out_attrs, bk.oe_attrs⟩]
  | ps =>
      ps.enum.map fun q =>
        ⟨q.2, b.port_name ++ "[" ++ toString q.1 ++ "]", direction, b.is_differential,
         bk.pin_attrs, bk.in_attrs, bk.out_attrs, bk.oe_attrs⟩

/-- `EfinixPlatform.iter_gpio_constraints` over the ordered port bindings. -/
def iter_gpio_constraints (ports : List PortBinding) : List GpioConstraintRecord :=
  ports.flatMap gpio_records_for

/-- One `efxpt:gpio` entry of the rendered `{{name}}.peri.xml` template:
the element attributes and the conditionally emitted nested configuration
blocks, each a name together with its attribute list. -/
structure GpioXmlEntry where
  gpio_name : String
  gpio_def : String
  mode : String
  port_attrs : Attrs
  input_config : Option (String × Attrs)
  output_config : Option (String × Attrs)
  output_enable_config : Option (String × Attrs)
deriving Repr, DecidableEq

/-- The `{{name}}.peri.xml` template body for one record of
`iter_gpio_constraints`. The template unpacks each yielded tuple as
`port_name, pin_name, direction, ...`, the reverse of the yield order, so
its `pin_name` variable holds the port signal name and its `port_name`
variable the physical pin. Hence the `name=` of the gpio element and of
the input and output blocks carry the port signal name, while `gpio_def=`
and the `name=` of the output-enable block carry the physical pin. The
input block is emitted when the direction is `input` or `inout`, the
output block when it is `output` or `inout`, and the output-enable block
only for `inout`, each populated from its bucket. -/
def render_gpio_entry (r : GpioConstraintRecord) : GpioXmlEntry :=
  { gpio_name := r.port_name
    gpio_def := r.pin_name
    mode := r.mode
    port_attrs := r.pin_attrs
    input_config :=
      if r.mode = "input" ∨ r.mode = "inout" then some (r.port_name, r.in_attrs) else none
    output_config :=
      if r.mode = "output" ∨ r.mode = "inout" then some (r.port_name, r.out_attrs) else none
    output_enable_config :=
      if r.mode = "inout" then some (r.pin_name, r.oe_attrs) else none }

/-- The `efxpt:gpio_info` body of `{{name}}.peri.xml`: one entry per record
of `iter_gpio_constraints`, in iteration order. -/
def render_peri_xml (ports : List PortBinding) : List GpioXmlEntry :=
  (iter_gpio_constraints ports).map render_gpio_entry

/-- One clock constraint yielded by `platform.iter_clock_constraints()`:
`(net_signal, port_signal, frequency)` with an optionally bound external
port signal, the frequency a rational standing for the Python number. -/
structure ClockConstraint where
  net_signal : String
  port_signal : Option String
  frequency : ℚ
deriving Repr, DecidableEq

/-- One `create_clock` line of the rendered `{{name}}.sdc` template:
the computed `-period` value and the (un-escaped) port signal name. -/
structure SdcLine where
  period : ℚ
  port_name : String
deriving Repr, DecidableEq

/-- The `{{name}}.sdc` template body: for each clock constraint, in order,
a `create_clock -period {{100000000/frequency}}` line when the port signal
is not none, and nothing otherwise. -/
def render_sdc (constraints : List ClockConstraint) : List SdcLine :=
  constraints.flatMap fun c =>
    match c.port_signal with
    | some p => [⟨100000000 / c.frequency, p⟩]
    | none => []

/-- The four entries of `command_templates`, identified by the external tool
each one invokes, in list order: `efx_map` (map/synthesize), the
`run_platform_tool.py` constraint-conversion helper, `efx_pnr`
(place-and-route), and `efx_pgm` (bitstream generation). -/
def command_templates : List String :=
  ["efx_map", "run_platform_tool", "efx_pnr", "efx_pgm"]

/-- Modelled from the spec: the build driver of the templated-platform base
class that executes `command_templates` is not part of this source snapshot;
per the spec, the rendered commands run strictly sequentially and a step
starts only if every previous step exited with status 0, a nonzero exit
aborting the remainder and failing the build. Returns the executed steps in
order and the final success flag, given each step's exit status. -/
def run_steps (exit_status : String → Nat) : List String → List String × Bool
  | [] => ([], true)
  | s :: rest =>
      if exit_status s = 0 then
        let r := run_steps exit_status rest
        (s :: r.1, r.2)
      else ([s], false)

/-- Modelled from the spec: running the whole Efinix pipeline is `run_steps`
applied to `command_templates`. -/
def run_pipeline (exit_status : String → Nat) : List String × Bool :=
  run_steps exit_status command_templates

/-- An environment mapping, as a Python dict in insertion order. -/
abbrev Env := List (String × String)

/-- Python dict assignment `d[k] = v`: overwrite the value in place when the
key is present, otherwise append the new entry. -/
def dict_set (d : Env) (k v : String) : Env :=
  if k ∈ d.map Prod.fst then
    d.map fun p => if p.1 = k then (k, v) else p
  else d ++ [(k, v)]

/-- `os.path.join` of a directory and one relative component, as used by
`run_platform_tool.py`. -/
def path_join (a b : String) : String := a ++ "/" ++ b

/-- The environment built by `run_platform_tool.py`: a copy of the caller's
environment (`os.environ.copy()`) with `PYTHONHOME` set to the globbed
python directory under `EFINITY_HOME` and `EFXPT_HOME`, `EFXPGM_HOME`,
`EFXDBG_HOME` set to fixed subdirectories of `EFINITY_HOME`.
`efinity_home` is the value of the `EFINITY_HOME` variable and
`target_pythonhome` the first match of the `python*` glob, both supplied by
the outside world. The caller's `environ` is only read, never written. -/
def build_target_env (environ : Env) (efinity_home target_pythonhome : String) : Env :=
  let e1 := dict_set environ "PYTHONHOME" target_pythonhome
  let e2 := dict_set e1 "EFXPT_HOME" (path_join efinity_home "pt")
  let e3 := dict_set e2 "EFXPGM_HOME" (path_join efinity_home "pgm")
  dict_set e3 "EFXDBG_HOME" (path_join efinity_home "debugger")

/-- The outcome of `EfinixPlatform.create_missing_domain`: the Python method
either returns `None` (fall-through), raises `NotImplementedError`, or
returns a module wiring the domain from a requested clock resource. -/
inductive DomainResult where
  | none
  | notImplementedError
  | module (clk_resource : String)
deriving Repr, DecidableEq

/-- `EfinixPlatform.create_missing_domain`: does nothing unless asked for
`sync` with a configured default clock; raises `NotImplementedError` on the
internal-oscillator path for the `T4` and `T8` devices; otherwise builds the
domain from the requested default clock resource. -/
def create_missing_domain (default_clk : Option String) (device : String)
    (name : String) : DomainResult :=
  if name = "sync" ∧ default_clk ≠ Option.none then
    if default_clk = some "oscint" ∧ (device = "T4" ∨ device = "T8") then
      DomainResult.notImplementedError
    else
      DomainResult.module (default_clk.getD "")
  else DomainResult.none

/-! ## Helper lemmas about the classifier -/

theorem classifyStep_eq (b : Buckets) (p : String × String) :
    classifyStep b p =
      ⟨b.pin_attrs ++ if p.1 ∈ PIN_ATTRS then [p] else [],
       b.in_attrs ++ if p.1 ∈ INPUT_ATTRS then [p] else [],
       b.out_attrs ++ if p.1 ∈ OUTPUT_ATTRS then [p] else [],
       b.oe_attrs ++ if p.1 ∈ OE_ATTRS then [p] else []⟩ := by
  simp only [classifyStep]
  split_ifs <;> simp_all

theorem foldl_classifyStep (attrs : Attrs) (b : Buckets) :
    attrs.foldl classifyStep b =
      ⟨b.pin_attrs ++ attrs.filter (fun p => p.1 ∈ PIN_ATTRS),
       b.in_attrs ++ attrs.filter (fun p => p.1 ∈ INPUT_ATTRS),
       b.out_attrs ++ attrs.filter (fun p => p.1 ∈ OUTPUT_ATTRS),
       b.oe_attrs ++ attrs.filter (fun p => p.1 ∈ OE_ATTRS)⟩ := by
  induction attrs generalizing b with
  | nil => simp
  | cons p rest ih =>
      rw [List.foldl_cons, classifyStep_eq, ih]
      simp only [List.filter_cons]
      split_ifs <;> simp_all

theorem conn_type_mem_filter_keys (attrs : Attrs) :
    "conn_type" ∈ (attrs.filter fun p => p.1 ∈ INPUT_ATTRS).map Prod.fst ↔
      "conn_type" ∈ attrs.map Prod.fst := by
  simp only [List.mem_map, List.mem_filter]
  constructor
  · rintro ⟨p, ⟨hp, -⟩, hk⟩
    exact ⟨p, hp, hk⟩
  · rintro ⟨p, hp, hk⟩
    refine ⟨p, ⟨hp, ?_⟩, hk⟩
    rw [hk]
    decide

theorem lookup_cons (k a v : String) (l : Attrs) :
    (((a, v) :: l).lookup k) = if k = a then some v else l.lookup k := by
  by_cases h : k = a
  · simp [List.lookup, h]
  · have hb : (k == a) = false := beq_eq_false_iff_ne.mpr h
    simp [List.lookup, hb, h]

theorem lookup_filter_input (attrs : Attrs) :
    (attrs.filter fun p => p.1 ∈ INPUT_ATTRS).lookup "conn_type" =
      attrs.lookup "conn_type" := by
  induction attrs with
  | nil => rfl
  | cons p rest ih =>
      obtain ⟨a, v⟩ := p
      by_cases hk : a = "conn_type"
      · subst hk
        have hin : ("conn_type" : String) ∈ INPUT_ATTRS := by decide
        simp [List.filter_cons, hin, lookup_cons, ih]
      · by_cases hin : a ∈ INPUT_ATTRS <;>
          simp [List.filter_cons, hin, lookup_cons, Ne.symm hk, ih]

theorem lookup_eq_none_iff (k : String) (l : Attrs) :
    l.lookup k = none ↔ k ∉ l.map Prod.fst := by
  induction l with
  | nil => simp [List.lookup]
  | cons p rest ih =>
      obtain ⟨a, v⟩ := p
      by_cases hk : k = a <;> simp [lookup_cons, hk, ih, eq_comm]

theorem generate_efinix_attrs_eq (res_clock : Bool) (attrs : Attrs) :
    generate_efinix_attrs res_clock attrs =
      ⟨attrs.filter (fun p => p.1 ∈ PIN_ATTRS),
       (attrs.filter fun p => p.1 ∈ INPUT_ATTRS) ++
         (if "conn_type" ∈ attrs.map Prod.fst then []
          else [("conn_type", if res_clock then "gclk" else "normal")]),
       attrs.filter (fun p => p.1 ∈ OUTPUT_ATTRS),
       attrs.filter (fun p => p.1 ∈ OE_ATTRS)⟩ := by
  unfold generate_efinix_attrs
  rw [foldl_classifyStep]
  by_cases hm : "conn_type" ∈ (attrs.filter fun p => p.1 ∈ INPUT_ATTRS).map Prod.fst
  · have hmem := (conn_type_mem_filter_keys attrs).mp hm
    simp [hm, hmem]
  · have hmem : "conn_type" ∉ attrs.map Prod.fst :=
      fun h => hm ((conn_type_mem_filter_keys attrs).mpr h)
    simp [hm, hmem]

/-- C1: `_generate_efinix_attrs` places each entry of the attribute mapping
into exactly those buckets whose static table lists its name (`PIN_ATTRS`,
`INPUT_ATTRS`, `OUTPUT_ATTRS`, `OE_ATTRS`), a name in several tables being
copied into each matching bucket and a name in no table into none; apart
from the `conn_type` default injection, no other entry appears in any
bucket, and the classifier is total, so no input (empty mapping or unknown
names included) is an error. -/
theorem generate_attrs_bucket_partition (res_clock : Bool) (attrs : Attrs)
    (n v : String) :
    ((n, v) ∈ (generate_efinix_attrs res_clock attrs).pin_attrs ↔
      (n, v) ∈ attrs ∧ n ∈ PIN_ATTRS) ∧
    ((n, v) ∈ (generate_efinix_attrs res_clock attrs).out_attrs ↔
      (n, v) ∈ attrs ∧ n ∈ OUTPUT_ATTRS) ∧
    ((n, v) ∈ (generate_efinix_attrs res_clock attrs).oe_attrs ↔
      (n, v) ∈ attrs ∧ n ∈ OE_ATTRS) ∧
    ((n, v) ∈ (generate_efinix_attrs res_clock attrs).in_attrs ↔
      (((n, v) ∈ attrs ∧ n ∈ INPUT_ATTRS) ∨
        (n = "conn_type" ∧ "conn_type" ∉ attrs.map Prod.fst ∧
          v = if res_clock then "gclk" else "normal"))) := by
  rw [generate_efinix_attrs_eq]
  refine ⟨by simp [List.mem_filter], by simp [List.mem_filter],
    by simp [List.mem_filter], ?_⟩
  by_cases hmem : "conn_type" ∈ attrs.map Prod.fst
  · simp only [if_pos hmem, List.append_nil, List.mem_filter,
      decide_eq_true_eq]
    constructor
    · exact fun h => Or.inl h
    · rintro (h | ⟨rfl, hno, -⟩)
      · exact h
      · exact absurd hmem hno
  · simp only [if_neg hmem, List.mem_append, List.mem_filter,
      List.mem_singleton, Prod.mk.injEq, decide_eq_true_eq]
    constructor
    · rintro (h | ⟨rfl, rfl⟩)
      · exact Or.inl h
      · exact Or.inr ⟨rfl, hmem, rfl⟩
    · rintro (h | ⟨rfl, -, rfl⟩)
      · exact Or.inl h
      · exact Or.inr ⟨rfl, rfl⟩

theorem lookup_append_right (k : String) (l₁ l₂ : Attrs)
    (h : l₁.lookup k = none) : (l₁ ++ l₂).lookup k = l₂.lookup k := by
  induction l₁ with
  | nil => simp
  | cons p rest ih =>
      obtain ⟨a, v⟩ := p
      by_cases hk : k = a
      · rw [lookup_cons, if_pos hk] at h
        exact absurd h (by simp)
      · rw [lookup_cons, if_neg hk] at h
        rw [List.cons_append, lookup_cons, if_neg hk]
        exact ih h

/-- C2: the input bucket returned by `_generate_efinix_attrs` always holds a
`conn_type` entry: the user-supplied value when the attribute mapping binds
`conn_type`, else `"gclk"` for a clock resource and `"normal"` otherwise;
in particular the input bucket is never empty. -/
theorem in_bucket_conn_type (res_clock : Bool) (attrs : Attrs) :
    ((generate_efinix_attrs res_clock attrs).in_attrs.lookup "conn_type" =
      some ((attrs.lookup "conn_type").getD
        (if res_clock then "gclk" else "normal"))) ∧
    (generate_efinix_attrs res_clock attrs).in_attrs ≠ [] := by
  rw [generate_efinix_attrs_eq]
  by_cases hmem : "conn_type" ∈ attrs.map Prod.fst
  · have hl := lookup_filter_input attrs
    have hne : attrs.lookup "conn_type" ≠ none := by
      rw [Ne, lookup_eq_none_iff]
      simpa using hmem
    obtain ⟨v, hv⟩ := Option.ne_none_iff_exists'.mp hne
    constructor
    · simp only [if_pos hmem, List.append_nil]
      rw [hl, hv]
      rfl
    · simp only [if_pos hmem, List.append_nil]
      intro hnil
      rw [hnil] at hl
      rw [hv] at hl
      exact absurd hl.symm (by simp)
  · have hnone : attrs.lookup "conn_type" = none :=
      (lookup_eq_none_iff _ _).mpr hmem
    have hfil : (attrs.filter fun p => p.1 ∈ INPUT_ATTRS).lookup "conn_type"
        = none := by rw [lookup_filter_input]; exact hnone
    constructor
    · simp only [if_neg hmem]
      rw [lookup_append_right _ _ _ hfil, lookup_cons, if_pos rfl, hnone]
      rfl
    · simp [if_neg hmem]

theorem gpio_records_map_pin_name (b : PortBinding) :
    (gpio_records_for b).map (fun r => r.pin_name) = b.pin_names := by
  obtain ⟨pins, port, dir, df, ck, attrs⟩ := b
  match pins with
  | [] => rfl
  | [p] => rfl
  | p :: q :: rest =>
      simp only [gpio_records_for, List.map_map]
      exact List.enum_map_snd (p :: q :: rest)

theorem gpio_records_length (b : PortBinding) :
    (gpio_records_for b).length = b.pin_names.length := by
  rw [← gpio_records_map_pin_name b, List.length_map]

/-- C3: `iter_gpio_constraints` yields exactly the sum of the resolved
pin-list lengths over the bindings, in binding order and, within a binding,
following the resolved pin-name list order; a binding with an empty
pin-name list contributes no records and is not an error. -/
theorem iter_gpio_length_and_order (ports : List PortBinding) :
    (iter_gpio_constraints ports).length =
      (ports.map fun b => b.pin_names.length).sum ∧
    (iter_gpio_constraints ports).map (fun r => r.pin_name) =
      ports.flatMap (fun b => b.pin_names) ∧
    ∀ port dir df ck attrs,
      gpio_records_for ⟨[], port, dir, df, ck, attrs⟩ =
        ([] : List GpioConstraintRecord) := by
  refine ⟨?_, ?_, fun port dir df ck attrs => rfl⟩
  · rw [iter_gpio_constraints, List.length_flatMap]
    congr 1
    congr 1
    funext b
    exact gpio_records_length b
  · rw [iter_gpio_constraints, List.map_flatMap]
    congr 1
    funext b
    exact gpio_records_map_pin_name b

/-- C4: within one binding whose resolved pin list has more than one name,
the i-th emitted record carries the port-signal name suffixed with the
0-based bit index as `P[i]`; when exactly one pin name resolves, the single
record carries the port-signal name unmodified. -/
theorem gpio_bit_naming (b : PortBinding) :
    (1 < b.pin_names.length →
      (gpio_records_for b).map (fun r => r.port_name) =
        (List.range b.pin_names.length).map
          fun i => b.port_name ++ "[" ++ toString i ++ "]") ∧
    (b.pin_names.length = 1 →
      (gpio_records_for b).map (fun r => r.port_name) = [b.port_name]) := by
  obtain ⟨pins, port, dir, df, ck, attrs⟩ := b
  match pins with
  | [] => exact ⟨fun h => absurd h (by simp), fun h => absurd h (by simp)⟩
  | [p] => exact ⟨fun h => absurd h (by simp), fun _ => rfl⟩
  | p :: q :: rest =>
      refine ⟨fun _ => ?_, fun h => absurd h (by simp)⟩
      simp only [gpio_records_for, List.map_map]
      rw [← List.enum_map_fst (p :: q :: rest), List.map_map]
      rfl

/-- Closed instance of the bit-naming law: a two-pin binding named `data`
yields indexed names `data[0]`, `data[1]`, and a one-pin binding named
`led` yields the bare name `led`. -/
theorem gpio_bit_naming_witness :
    (gpio_records_for ⟨["B1", "B2"], "data", "io", false, false, []⟩).map
        (fun r => r.port_name) = ["data[0]", "data[1]"] ∧
    (gpio_records_for ⟨["A3"], "led", "o", false, false, []⟩).map
        (fun r => r.port_name) = ["led"] := by
  constructor
  · have h :=
      (gpio_bit_naming ⟨["B1", "B2"], "data", "io", false, false, []⟩).1
        (by decide)
    rw [h]
    decide
  · exact (gpio_bit_naming ⟨["A3"], "led", "o", false, false, []⟩).2 (by decide)

/-- C5: for every record rendered into the pin-constraint file, the nested
input-config block is emitted iff the mode is `input` or `inout`, the
output-config block iff the mode is `output` or `inout`, and the
output-enable-config block iff the mode is `inout`; each emitted block is
populated from the corresponding attribute bucket of the record (the
input and output blocks named after the port signal, the output-enable
block after the physical pin, following the template's swapped unpacking
of the yielded tuple). -/
theorem peri_config_blocks (r : GpioConstraintRecord) :
    ((render_gpio_entry r).input_config.isSome ↔
      (r.mode = "input" ∨ r.mode = "inout")) ∧
    ((render_gpio_entry r).output_config.isSome ↔
      (r.mode = "output" ∨ r.mode = "inout")) ∧
    ((render_gpio_entry r).output_enable_config.isSome ↔ r.mode = "inout") ∧
    (∀ c, (render_gpio_entry r).input_config = some c →
      c = (r.port_name, r.in_attrs)) ∧
    (∀ c, (render_gpio_entry r).output_config = some c →
      c = (r.port_name, r.out_attrs)) ∧
    (∀ c, (render_gpio_entry r).output_enable_config = some c →
      c = (r.pin_name, r.oe_attrs)) := by
  unfold render_gpio_entry
  split_ifs <;> simp_all

/-- Closed instance of the block-emission law at a bidirectional record:
each of the three nested blocks carries exactly its bucket. -/
theorem peri_config_blocks_witness :
    (("data", ([("conn_type", "normal")] : Attrs)) =
      ("data", ([("conn_type", "normal")] : Attrs))) ∧
    (("data", ([("drive_strength", "4mA")] : Attrs)) =
      ("data", ([("drive_strength", "4mA")] : Attrs))) ∧
    (("A1", ([] : Attrs)) = ("A1", ([] : Attrs))) := by
  have h := peri_config_blocks
    ⟨"A1", "data", "inout", false, [], [("conn_type", "normal")],
     [("drive_strength", "4mA")], []⟩
  exact ⟨h.2.2.2.1 _ (by decide), h.2.2.2.2.1 _ (by decide),
    h.2.2.2.2.2 _ (by decide)⟩

/-- The timing-constraint lines as the spec words them: one line per
constraint with a bound external port, in input order, the period the fixed
constant 100000000 divided by the frequency. Stated for comparison with
`render_sdc`, which is translated from the template. -/
def sdc_lines_spec (cs : List ClockConstraint) : List SdcLine :=
  cs.filterMap fun c =>
    c.port_signal.map fun p => SdcLine.mk (100000000 / c.frequency) p

/-- C6: the rendered timing-constraint file holds exactly one
`create_clock` line per clock constraint whose external port signal is
bound, in input order, with period `100000000 / frequency`; unbound
constraints produce no line. -/
theorem sdc_emission (cs : List ClockConstraint) :
    render_sdc cs = sdc_lines_spec cs ∧
    (render_sdc cs).length =
      (cs.filter fun c => c.port_signal.isSome).length := by
  induction cs with
  | nil => exact ⟨rfl, rfl⟩
  | cons c rest ih =>
      obtain ⟨ih1, ih2⟩ := ih
      simp only [render_sdc, sdc_lines_spec] at ih1 ih2 ⊢
      rw [ih1] at ih2
      rcases hc : c.port_signal with _ | p <;>
        simp [List.filterMap_cons, List.filter_cons, hc, ih1, ih2]

/-- C7: the four build steps run strictly sequentially in the fixed order
of `command_templates`; the executed steps always form a prefix of that
list, the bitstream step runs only if all three earlier steps exited with
status 0, and a nonzero exit of place-and-route means the bitstream step is
never invoked and the build is reported failed. -/
theorem pipeline_sequential (exit_status : String → Nat) :
    (∃ t, (run_pipeline exit_status).1 ++ t = command_templates) ∧
    ("efx_pgm" ∈ (run_pipeline exit_status).1 →
      exit_status "efx_map" = 0 ∧ exit_status "run_platform_tool" = 0 ∧
        exit_status "efx_pnr" = 0) ∧
    (exit_status "efx_pnr" ≠ 0 →
      "efx_pgm" ∉ (run_pipeline exit_status).1 ∧
        (run_pipeline exit_status).2 = false) := by
  by_cases h1 : exit_status "efx_map" = 0 <;>
    by_cases h2 : exit_status "run_platform_tool" = 0 <;>
      by_cases h3 : exit_status "efx_pnr" = 0 <;>
        by_cases h4 : exit_status "efx_pgm" = 0 <;>
          simp [run_pipeline, command_templates, run_steps, h1, h2, h3, h4]

/-- Closed instance of the pipeline-abort scenario: when place-and-route
exits with status 1 and every other step would succeed, the bitstream step
is not executed and the build fails. -/
theorem pipeline_sequential_witness :
    "efx_pgm" ∉
        (run_pipeline fun s => if s = "efx_pnr" then 1 else 0).1 ∧
      (run_pipeline fun s => if s = "efx_pnr" then 1 else 0).2 = false :=
  (pipeline_sequential fun s => if s = "efx_pnr" then 1 else 0).2.2
    (by decide)

theorem lookup_append_left (k : String) (l₁ l₂ : Attrs) (w : String)
    (h : l₁.lookup k = some w) : (l₁ ++ l₂).lookup k = some w := by
  induction l₁ with
  | nil => simp [List.lookup] at h
  | cons p rest ih =>
      obtain ⟨a, v⟩ := p
      by_cases hk : k = a
      · rw [lookup_cons, if_pos hk] at h
        rw [List.cons_append, lookup_cons, if_pos hk]
        exact h
      · rw [lookup_cons, if_neg hk] at h
        rw [List.cons_append, lookup_cons, if_neg hk]
        exact ih h

theorem lookup_map_replace (d : Env) (k v : String)
    (h : k ∈ d.map Prod.fst) :
    (d.map fun p => if p.1 = k then (k, v) else p).lookup k = some v := by
  induction d with
  | nil => simp at h
  | cons p rest ih =>
      obtain ⟨a, w⟩ := p
      by_cases hp : a = k
      · rw [List.map_cons, if_pos (by simpa using hp), lookup_cons,
          if_pos rfl]
      · rw [List.map_cons, if_neg (by simpa using hp), lookup_cons,
          if_neg (fun he => hp he.symm)]
        apply ih
        rcases (by simpa using h : k = a ∨ k ∈ rest.map Prod.fst) with he | hm
        · exact absurd he.symm hp
        · exact hm

theorem lookup_map_replace_other (d : Env) (k v k' : String) (h : k' ≠ k) :
    (d.map fun p => if p.1 = k then (k, v) else p).lookup k' =
      d.lookup k' := by
  induction d with
  | nil => rfl
  | cons p rest ih =>
      obtain ⟨a, w⟩ := p
      by_cases hp : a = k
      · rw [List.map_cons, if_pos (by simpa using hp), lookup_cons,
          if_neg h, lookup_cons, if_neg (hp ▸ h), ih]
      · by_cases hk : k' = a
        · rw [List.map_cons, if_neg (by simpa using hp), lookup_cons,
            if_pos hk, lookup_cons, if_pos hk]
        · rw [List.map_cons, if_neg (by simpa using hp), lookup_cons,
            if_neg hk, lookup_cons, if_neg hk, ih]

theorem lookup_dict_set_self (d : Env) (k v : String) :
    (dict_set d k v).lookup k = some v := by
  unfold dict_set
  split_ifs with h
  · exact lookup_map_replace d k v h
  · have hn : d.lookup k = none := (lookup_eq_none_iff k d).mpr h
    rw [lookup_append_right _ _ _ hn, lookup_cons, if_pos rfl]

theorem lookup_dict_set_other (d : Env) (k v k' : String) (h : k' ≠ k) :
    (dict_set d k v).lookup k' = d.lookup k' := by
  unfold dict_set
  split_ifs with hm
  · exact lookup_map_replace_other d k v k' h
  · rcases hd : d.lookup k' with _ | w
    · rw [lookup_append_right _ _ _ hd, lookup_cons, if_neg h]
      rfl
    · exact lookup_append_left _ _ _ _ hd

/-- C8: the environment built for the constraint-conversion helper binds
`PYTHONHOME` to the resolved python directory and `EFXPT_HOME`,
`EFXPGM_HOME`, `EFXDBG_HOME` to fixed subdirectories of `EFINITY_HOME`,
and agrees with the caller's environment on every other variable; the
caller's environment itself is only read (the construction starts from a
copy), never changed. -/
theorem target_env_override (environ : Env)
    (efinity_home target_pythonhome : String) :
    ((build_target_env environ efinity_home target_pythonhome).lookup
        "PYTHONHOME" = some target_pythonhome) ∧
    ((build_target_env environ efinity_home target_pythonhome).lookup
        "EFXPT_HOME" = some (path_join efinity_home "pt")) ∧
    ((build_target_env environ efinity_home target_pythonhome).lookup
        "EFXPGM_HOME" = some (path_join efinity_home "pgm")) ∧
    ((build_target_env environ efinity_home target_pythonhome).lookup
        "EFXDBG_HOME" = some (path_join efinity_home "debugger")) ∧
    ∀ k, k ≠ "PYTHONHOME" → k ≠ "EFXPT_HOME" → k ≠ "EFXPGM_HOME" →
      k ≠ "EFXDBG_HOME" →
      (build_target_env environ efinity_home target_pythonhome).lookup k =
        environ.lookup k := by
  unfold build_target_env
  refine ⟨?_, ?_, ?_, ?_, ?_⟩
  · rw [lookup_dict_set_other _ _ _ _ (by decide),
      lookup_dict_set_other _ _ _ _ (by decide),
      lookup_dict_set_other _ _ _ _ (by decide), lookup_dict_set_self]
  · rw [lookup_dict_set_other _ _ _ _ (by decide),
      lookup_dict_set_other _ _ _ _ (by decide), lookup_dict_set_self]
  · rw [lookup_dict_set_other _ _ _ _ (by decide), lookup_dict_set_self]
  · rw [lookup_dict_set_self]
  · intro k h1 h2 h3 h4
    rw [lookup_dict_set_other _ _ _ _ h4, lookup_dict_set_other _ _ _ _ h3,
      lookup_dict_set_other _ _ _ _ h2, lookup_dict_set_other _ _ _ _ h1]

/-- Closed instance of the environment construction: a caller variable
such as `PATH` is left untouched by the copy-then-override discipline. -/
theorem target_env_override_witness :
    (build_target_env [("PATH", "/usr/bin"), ("PYTHONHOME", "/old")]
        "/opt/efinity" "/opt/efinity/python38").lookup "PATH" =
      ([("PATH", "/usr/bin"), ("PYTHONHOME", "/old")] : Env).lookup
        "PATH" :=
  (target_env_override [("PATH", "/usr/bin"), ("PYTHONHOME", "/old")]
      "/opt/efinity" "/opt/efinity/python38").2.2.2.2 "PATH"
    (by decide) (by decide) (by decide) (by decide)

/-- C9: for a platform whose default clock is the internal oscillator and
whose device is `T4` or `T8`, `create_missing_domain("sync")` takes the
unimplemented internal-oscillator path and raises unconditionally, never
returning a clock-domain module. -/
theorem oscint_domain_not_implemented (device : String)
    (h : device = "T4" ∨ device = "T8") :
    create_missing_domain (some "oscint") device "sync" =
      DomainResult.notImplementedError := by
  unfold create_missing_domain
  rw [if_pos ⟨rfl, by simp⟩, if_pos ⟨rfl, h⟩]

/-- Closed instance of the internal-oscillator error path on the `T4`
device. -/
theorem oscint_domain_not_implemented_witness :
    create_missing_domain (some "oscint") "T4" "sync" =
      DomainResult.notImplementedError :=
  oscint_domain_not_implemented "T4" (Or.inl rfl)

theorem mem_gpio_records_oe (b : PortBinding) (r : GpioConstraintRecord)
    (h : r ∈ gpio_records_for b) :
    r.oe_attrs = (generate_efinix_attrs b.clock b.attrs).oe_attrs := by
  obtain ⟨pins, port, dir, df, ck, attrs⟩ := b
  match pins with
  | [] => simp [gpio_records_for] at h
  | [p] =>
      simp only [gpio_records_for, List.mem_singleton] at h
      rw [h]
  | p :: q :: rest =>
      simp only [gpio_records_for, List.mem_map] at h
      obtain ⟨qq, -, rfl⟩ := h
      rfl

/-- C10: the output-enable attribute table is empty, so the output-enable
bucket returned by the classifier is always the empty mapping, and every
output-enable-config block rendered for an inout record in the
pin-constraint file carries no attributes. -/
theorem oe_bucket_always_empty (res_clock : Bool) (attrs : Attrs)
    (ports : List PortBinding) :
    (generate_efinix_attrs res_clock attrs).oe_attrs = [] ∧
    ∀ e ∈ render_peri_xml ports, ∀ c,
      e.output_enable_config = some c → c.2 = [] := by
  have hempty : ∀ (rc : Bool) (a : Attrs),
      (generate_efinix_attrs rc a).oe_attrs = [] := by
    intro rc a
    rw [generate_efinix_attrs_eq]
    simp [OE_ATTRS]
  refine ⟨hempty _ _, ?_⟩
  intro e he c hc
  simp only [render_peri_xml, List.mem_map] at he
  obtain ⟨r, hr, rfl⟩ := he
  simp only [iter_gpio_constraints, List.mem_flatMap] at hr
  obtain ⟨b, -, hrb⟩ := hr
  have hoe : r.oe_attrs = [] := (mem_gpio_records_oe b r hrb).trans (hempty _ _)
  by_cases hm : r.mode = "inout"
  · have : (render_gpio_entry r).output_enable_config =
        some (r.pin_name, r.oe_attrs) := by simp [render_gpio_entry, hm]
    rw [this] at hc
    obtain rfl := Option.some.inj hc
    exact hoe.symm ▸ rfl
  · have : (render_gpio_entry r).output_enable_config = none := by
      simp [render_gpio_entry, hm]
    rw [this] at hc
    exact absurd hc (by simp)

/-- Closed instance of the empty output-enable bucket: a bidirectional
one-pin binding renders an output-enable-config block with no attributes. -/
theorem oe_bucket_always_empty_witness :
    (("A1", ([] : Attrs)) : String × Attrs).2 = ([] : Attrs) :=
  (oe_bucket_always_empty false []
      [⟨["A1"], "led", "io", false, false, []⟩]).2
    (render_gpio_entry
      ⟨"A1", "led", "inout", false, [], [("conn_type", "normal")], [], []⟩)
    (by decide) ("A1", []) (by decide)

end Efinix
